import Mathlib

set_option autoImplicit false

/-!
Shallow embedding of the bill-text extraction pipeline (`src/text_extract.py`)
and of the events checker (`src/tools/scruffy/checkers/events.py`).

External collaborators (the HTTP scraper, the `extract_text` conversion
routine, the `jid_to_abbr` lookup and the record store) are passed in as
function arguments; the filesystem is an explicit association list from
path to byte content. Python exceptions surface as `Except` / explicit
error constructors.
-/

namespace TextExtract

/-- Raw byte content, abstracted as a list of byte values. -/
abbrev Bytes := List Nat

/-- The on-disk cache: an association list from file path to content.
`lookup` is `os.path.exists` + `open(...).read()` in one step. -/
abbrev FS := List (String × Bytes)

/-- Python exceptions that the embedded code can raise. -/
inductive PyError where
  /-- `MIMETYPES[version["media_type"]]` with an unmapped media type. -/
  | keyError
  /-- `click.secho(msg, some_string, ...)`: the second positional argument of
  `click.secho` is its `file` parameter; `click.echo` ends by calling
  `file.write(...)`, and a `str` has no `write` attribute. -/
  | attributeError
  /-- Reading a local variable that was never bound
  (`link` after a `for` loop over an empty sequence). -/
  | nameError
  deriving DecidableEq, Repr

/-- The `MIMETYPES` table of `src/text_extract.py`, lines 15-21. -/
def MIMETYPES : List (String × String) :=
  [("application/pdf", "pdf"),
   ("text/html", "html"),
   ("application/msword", "doc"),
   ("application/rtf", "rtf"),
   ("application/vnd.openxmlformats-officedocument.wordprocessingml.document", "docx")]

/-- `MIMETYPES[media_type]` as a partial lookup: `none` models `KeyError`. -/
def mimeExt (media_type : String) : Option String :=
  (MIMETYPES.find? (fun p => p.1 == media_type)).map Prod.snd

/-- The five media types the table maps (its keys, in order). -/
def mimeKeys : List String := MIMETYPES.map Prod.fst

/-- One row of the sample csv / one `version` dict passed to `download`. -/
structure VersionRow where
  jurisdiction_id : String
  session : String
  identifier : String
  note : String
  media_type : String
  url : String
  deriving DecidableEq, Repr

/-- The f-string of `download` (line 38):
`raw/{abbr}/{session}-{identifier}-{note}.{ext}`. -/
def rawPath (abbr session identifier note ext : String) : String :=
  "raw/" ++ abbr ++ "/" ++ session ++ "-" ++ identifier ++ "-" ++ note ++ "." ++ ext

/-- Lines 36-38 of `download`: abbreviate the jurisdiction, map the media
type through `MIMETYPES` (raising `KeyError` on an unmapped type), and build
the cache path. `jid_to_abbr` lives outside `src/` and is passed in. -/
def resolvePath (jidToAbbr : String → String) (v : VersionRow) : Except PyError String :=
  match mimeExt v.media_type with
  | none => .error .keyError
  | some ext =>
      .ok (rawPath (jidToAbbr v.jurisdiction_id) v.session v.identifier v.note ext)

/-- Model of the call `click.secho("could not fetch", version["url"], fg="yellow")`
(line 48): the URL string is passed as `click.secho`'s second positional
parameter, which is `file`; `click.echo` invokes `.write` on that object and a
`str` has no `write` method, so the call raises `AttributeError` (in every
released click version) instead of printing. -/
def sechoStrFile (_msg _fileOperand : String) : Except PyError Unit :=
  .error .attributeError

/-- Everything one call of `download` did: the filesystem afterwards, the
returned pair (or the exception that escaped), and how many network fetches
and raw-file writes were performed. -/
structure DownloadResult where
  fs : FS
  ret : Except PyError (Option (String × Bytes))
  fetches : Nat
  writes : Nat

/-- `download(version)` (lines 35-54). `fetch` is `scraper.urlretrieve` /
the network: `none` models a raised fetch exception, `some content` a
successful retrieval whose bytes are then both written to `filename` and
returned (`scrapelib.urlretrieve` writes the response body to the file).
On a cache hit the file is read back with no network access. On fetch
failure the handler itself raises (see `sechoStrFile`); had it returned, the
result would have been `(None, None)`, modelled by the dead `.ok` branch. -/
def download (jidToAbbr : String → String) (fetch : String → Option Bytes)
    (v : VersionRow) (fs : FS) : DownloadResult :=
  match resolvePath jidToAbbr v with
  | .error e => ⟨fs, .error e, 0, 0⟩
  | .ok filename =>
      match fs.lookup filename with
      | some data => ⟨fs, .ok (some (filename, data)), 0, 0⟩
      | none =>
          match fetch v.url with
          | none =>
              match sechoStrFile "could not fetch" v.url with
              | .error e => ⟨fs, .error e, 1, 0⟩
              | .ok _ => ⟨fs, .ok none, 1, 0⟩
          | some content =>
              ⟨(filename, content) :: fs, .ok (some (filename, content)), 1, 1⟩

/-- A `BillVersionLink` row: one alternate location of a version's document. -/
structure LinkRec where
  url : String
  media_type : String
  deriving DecidableEq, Repr

/-- A `BillVersion` row with its links. Dates are ISO `YYYY-MM-DD` strings,
so lexicographic string order is date order. -/
structure VersionRec where
  date : String
  note : String
  links : List LinkRec
  deriving DecidableEq, Repr

/-- The slice of a `Bill` row that `update_bill` reads. -/
structure Bill where
  title : String
  jurisdiction_id : String
  versions : List VersionRec
  deriving DecidableEq, Repr

/-- The `metadata` dict built for `extract_text` in `update_bill`. -/
structure Metadata where
  url : String
  media_type : String
  title : String
  jurisdiction_id : String
  deriving DecidableEq, Repr

/-- Lines 92-97 of `update_bill`. -/
def linkMetadata (bill : Bill) (link : LinkRec) : Metadata :=
  ⟨link.url, link.media_type, bill.title, bill.jurisdiction_id⟩

/-- Strict comparison of two characters by code point. -/
def charLt (a b : Char) : Bool :=
  Nat.blt a.toNat b.toNat

/-- Strict lexicographic comparison of character lists (the standard string
collation: a proper initial segment is smaller, otherwise the first differing
character decides). -/
def charListLt : List Char → List Char → Bool
  | _, [] => false
  | [], _ :: _ => true
  | a :: as, b :: bs => charLt a b || (a == b && charListLt as bs)

/-- Strict lexicographic comparison of strings. -/
def strLt (a b : String) : Bool :=
  charListLt a.data b.data

/-- Strict lexicographic comparison on `(date, note)` pairs: the order
`ORDER BY date, note` sorts by (ISO date strings collate chronologically). -/
def keyLt (a b : String × String) : Bool :=
  strLt a.1 b.1 || (a.1 == b.1 && strLt a.2 b.2)

/-- `bill.versions.order_by("-date", "-note")[0]` (lines 77-80): the head of
the descending sort, i.e. a maximum of the `(date, note)` lexicographic key;
`none` models the `IndexError` branch (no versions). -/
def latestVersion : List VersionRec → Option VersionRec
  | [] => none
  | v :: rest =>
      match latestVersion rest with
      | none => some v
      | some w => if keyLt (v.date, v.note) (w.date, w.note) then some w else some v

/-- What one call of `extract_text(data, metadata)` did in the update loop:
it raised, or returned a (possibly empty) text. -/
inductive ExtractResult where
  | raised
  | ok (text : String)
  deriving DecidableEq, Repr

/-- The `for link in latest_version.links.all()` loop of `update_bill`
(lines 86-106), with the loop state passed explicitly: `raw_text` and
`is_error` as initialised on lines 84-85, and the Python loop variable
`link` (`none` while it is still unbound). A fetch exception or an
extraction exception is caught and the loop continues with the next link
(the extraction handler's `click.secho(e, fg="red")` is treated as plain
logging); the loop breaks at the first non-empty extracted text. -/
def linkLoop (fetch : String → Option Bytes) (extract : Bytes → Metadata → ExtractResult)
    (bill : Bill) :
    List LinkRec → String → Bool → Option LinkRec → String × Bool × Option LinkRec
  | [], raw_text, is_error, link => (raw_text, is_error, link)
  | l :: rest, raw_text, is_error, _ =>
      match fetch l.url with
      | none => linkLoop fetch extract bill rest raw_text is_error (some l)
      | some data =>
          match extract data (linkMetadata bill l) with
          | .raised => linkLoop fetch extract bill rest raw_text is_error (some l)
          | .ok t =>
              if t == "" then linkLoop fetch extract bill rest t is_error (some l)
              else (t, false, some l)

/-- A link "succeeds" when its fetch returns, extraction returns, and the
extracted text is non-empty — exactly the condition on which `linkLoop`
breaks at that link. -/
def linkSucceeds (fetch : String → Option Bytes) (extract : Bytes → Metadata → ExtractResult)
    (bill : Bill) (l : LinkRec) : Bool :=
  match fetch l.url with
  | none => false
  | some data =>
      match extract data (linkMetadata bill l) with
      | .raised => false
      | .ok t => t != ""

/-- The text a link contributes: its extraction output when fetch and
extraction both return, `""` otherwise. -/
def linkText (fetch : String → Option Bytes) (extract : Bytes → Metadata → ExtractResult)
    (bill : Bill) (l : LinkRec) : String :=
  match fetch l.url with
  | none => ""
  | some data =>
      match extract data (linkMetadata bill l) with
      | .raised => ""
      | .ok t => t

/-- The Python variable `link` after a `for link in links:` loop that started
with `last` bound (or unbound, `none`): the last element when the list is
non-empty. -/
def lastAttempt (last : Option LinkRec) : List LinkRec → Option LinkRec
  | [] => last
  | l :: rest => lastAttempt (some l) rest

/-- The `SearchableBill` row created on lines 108-115 (the fields this
pipeline computes). -/
structure SearchableBill where
  version_link : LinkRec
  all_titles : String
  raw_text : String
  is_error : Bool
  deriving DecidableEq, Repr

/-- What one call of `update_bill(bill)` did. -/
inductive UpdateOutcome where
  /-- `IndexError` on a bill with no versions: plain `return`, no record. -/
  | skipped
  /-- `SearchableBill.objects.create(...)` was reached. -/
  | persisted (rec : SearchableBill)
  /-- An exception escaped `update_bill`. -/
  | crashed (e : PyError)
  deriving DecidableEq, Repr

/-- `update_bill(bill)` (lines 74-116). When the latest version has zero
links the `for` loop body never runs, so the name `link` is unbound at
`SearchableBill.objects.create(..., version_link=link, ...)` and the call
raises `NameError`. -/
def update_bill (fetch : String → Option Bytes) (extract : Bytes → Metadata → ExtractResult)
    (bill : Bill) : UpdateOutcome :=
  match latestVersion bill.versions with
  | none => .skipped
  | some latest =>
      match linkLoop fetch extract bill latest.links "" true none with
      | (_, _, none) => .crashed .nameError
      | (raw_text, is_error, some link) =>
          .persisted ⟨link, bill.title, raw_text, is_error⟩

/-- One observable write the `update` command issues against the store. -/
inductive StoreEvent where
  /-- One `SearchableBill.objects.create(...)`, with the id the store
  assigned to the new row. -/
  | createRecord (id : Nat) (rec : SearchableBill)
  /-- The single `SearchableBill.objects.filter(id__in=ids).update(...)`
  search-vector recomputation, with the `ids_to_update` list it was given
  (`update_bill` returns `None` for a skipped bill and that value is
  appended unconditionally). -/
  | bulkUpdateVectors (ids : List (Option Nat))
  deriving DecidableEq, Repr

/-- Whether an event is the batch search-vector recomputation. -/
def isBulk : StoreEvent → Bool
  | .bulkUpdateVectors _ => true
  | _ => false

/-- The ids of the records a trace created, in creation order. -/
def createdIds (evs : List StoreEvent) : List Nat :=
  evs.filterMap fun e =>
    match e with
    | .createRecord i _ => some i
    | _ => none

/-- The per-bill loop of the `update` command (lines 236-238): sequentially
run `update_bill` on each selected bill, appending each return value to
`ids_to_update`. The store assigns ids `nextId, nextId + 1, ...` to the
records created this run. A crash inside `update_bill` propagates and aborts
the loop; the events already performed stay performed. -/
def processBills (fetch : String → Option Bytes) (extract : Bytes → Metadata → ExtractResult) :
    List Bill → Nat → List StoreEvent × Except PyError (List (Option Nat))
  | [], _ => ([], .ok [])
  | b :: rest, nextId =>
      match update_bill fetch extract b with
      | .crashed e => ([], .error e)
      | .skipped =>
          let (evs, r) := processBills fetch extract rest nextId
          (evs, r.map (fun ids => none :: ids))
      | .persisted rec =>
          let (evs, r) := processBills fetch extract rest (nextId + 1)
          (StoreEvent.createRecord nextId rec :: evs, r.map (fun ids => some nextId :: ids))

/-- The `update` command (lines 229-239): run every selected bill, then issue
the one batch search-vector recomputation over the accumulated
`ids_to_update`. The second component records whether the run finished or an
exception aborted it (in which case no batch update is ever issued). -/
def update_run (fetch : String → Option Bytes) (extract : Bytes → Metadata → ExtractResult)
    (bills : List Bill) (nextId : Nat) : List StoreEvent × Except PyError Unit :=
  match processBills fetch extract bills nextId with
  | (evs, .error e) => (evs, .error e)
  | (evs, .ok ids) => (evs ++ [StoreEvent.bulkUpdateVectors ids], .ok ())

/-- One iteration of the `sample` command's loop, classified by what
`download` and `extract_to_file` returned for it: the download produced no
filename (missing), or it produced one and extraction wrote `n` bytes. -/
inductive SampleItem where
  | missing
  | fetched (n_bytes : Nat)
  deriving DecidableEq, Repr

/-- The `count`, `missing`, `empty` counters of `sample` (lines 196-205):
`missing` counts items with no filename, `empty` counts fetched items whose
extracted byte count is falsy (zero). -/
def sampleCounts : List SampleItem → Nat × Nat × Nat
  | [] => (0, 0, 0)
  | i :: rest =>
      let (c, m, e) := sampleCounts rest
      match i with
      | .missing => (c + 1, m + 1, e)
      | .fetched n => (c + 1, m, if n = 0 then e + 1 else e)

/-- Lines 207-211: `status = "green"`, overridden to `"red"` when
`empty or missing > 10`, else to `"yellow"` when `missing`. -/
def sampleStatus (missing empty : Nat) : String :=
  if empty != 0 || missing > 10 then "red"
  else if missing != 0 then "yellow"
  else "green"

/-- Lines 214-215: the command's return value, `1` on red, `None` (which a
caller exits with as status `0`) otherwise. -/
def sampleExit (missing empty : Nat) : Nat :=
  if sampleStatus missing empty = "red" then 1 else 0

/-- The aggregate outcome of one `sample` run over its items:
`(status, exit code)`. -/
def sample (items : List SampleItem) : String × Nat :=
  let (_, m, e) := sampleCounts items
  (sampleStatus m e, sampleExit m e)

/-- Whether an item counts toward `missing` (entirely unfetchable). -/
def isMissing : SampleItem → Bool
  | .missing => true
  | _ => false

/-- Whether an item counts toward `empty` (fetched but extracted to nothing). -/
def producedEmpty : SampleItem → Bool
  | .fetched 0 => true
  | _ => false

end TextExtract

namespace Scruffy

/-- The `data` dict of a `bad-related-entity` check:
`{"id": wid, "name": entity["name"]}`. -/
structure CheckData where
  id : Option String
  name : String
  deriving DecidableEq, Repr

/-- The `Check` namedtuple as used by the events checker. -/
structure Check where
  collection : String
  id : String
  tagname : String
  severity : String
  data : Option CheckData
  deriving DecidableEq, Repr

/-- A `related_entities` element of an agenda item. `id` is `none` for a
JSON `null`; the empty string is also falsy for the `if entity['id']:` test. -/
structure REntity where
  rtype : String
  id : Option String
  name : String
  deriving DecidableEq, Repr

/-- One element of an event's `agenda` list. -/
structure AgendaItem where
  related_entities : List REntity
  deriving DecidableEq, Repr

/-- The slice of an event document that `check` reads. `startTime` models
`event['when']`, `endTime` models `event.get('end')` (`none` when absent or
falsy), `eid` models `event['_id']`. -/
structure EventT where
  eid : String
  startTime : Nat
  endTime : Option Nat
  agenda : List AgendaItem
  deriving DecidableEq, Repr

/-- Python truthiness of `entity['id']`. -/
def truthy : Option String → Bool
  | none => false
  | some s => s != ""

/-- The body of the innermost loop of `check` (lines 21-28 of
`events.py`): when the entity id is truthy, `wid = resolve(type, id)`; when
`wid is None` a `bad-related-entity` check is yielded whose data carries
`wid` — i.e. `none`, the failed resolution result — as its `"id"` entry. -/
def entityCheck (resolve : String → String → Option String) (eid : String)
    (ent : REntity) : Option Check :=
  match ent.id with
  | none => none
  | some i =>
      if i != "" then
        match resolve ent.rtype i with
        | none =>
            some ⟨"events", eid, "bad-related-entity", "important", some ⟨none, ent.name⟩⟩
        | some _ => none
      else none

/-- The checks `check` yields for one event, in yield order: the common
checks, the `ends-before-it-starts` check, then the agenda scan. -/
def checkEvent (commonChecks : EventT → List Check)
    (resolve : String → String → Option String) (ev : EventT) : List Check :=
  commonChecks ev
    ++ (match ev.endTime with
        | some e => if decide (ev.startTime > e) then
            [⟨"events", ev.eid, "ends-before-it-starts", "important", none⟩]
          else []
        | none => [])
    ++ ev.agenda.flatMap (fun ag => ag.related_entities.filterMap (entityCheck resolve ev.eid))

/-- `check(db)`: the concatenation over all events in the database. -/
def checkDb (commonChecks : EventT → List Check)
    (resolve : String → String → Option String) (db : List EventT) : List Check :=
  db.flatMap (checkEvent commonChecks resolve)

end Scruffy

/-! ## Lemmas about the lexicographic comparison -/

namespace TextExtract

theorem charLt_eq_true {a b : Char} : charLt a b = true ↔ a.toNat < b.toNat := by
  simp [charLt, Nat.blt_eq]

theorem charLt_eq_false {a b : Char} : charLt a b = false ↔ ¬ a.toNat < b.toNat := by
  rw [← Bool.not_eq_true, charLt_eq_true]

theorem char_toNat_inj {a b : Char} (h : a.toNat = b.toNat) : a = b :=
  Char.eq_of_val_eq (UInt32.ext h)

theorem charListLt_irrefl : ∀ as : List Char, charListLt as as = false
  | [] => rfl
  | a :: as => by
      simp [charListLt, charListLt_irrefl as, charLt_eq_false]

theorem charListLt_asymm :
    ∀ as bs : List Char, charListLt as bs = true → charListLt bs as = false
  | as, [], h => by cases as <;> simp [charListLt] at h
  | [], _ :: _, _ => rfl
  | a :: as, b :: bs, h => by
      simp only [charListLt, Bool.or_eq_true, Bool.and_eq_true, beq_iff_eq] at h
      simp only [charListLt, Bool.or_eq_false_iff, Bool.and_eq_false_iff]
      rcases h with h | ⟨rfl, h⟩
      · rw [charLt_eq_true] at h
        refine ⟨by rw [charLt_eq_false]; omega, Or.inl ?_⟩
        rw [beq_eq_false_iff_ne]
        intro e
        subst e
        omega
      · exact ⟨by rw [charLt_eq_false]; omega, Or.inr (charListLt_asymm as bs h)⟩

theorem charListLt_negtrans :
    ∀ as bs cs : List Char, charListLt as bs = false → charListLt bs cs = false →
      charListLt as cs = false
  | as, _, [], _, _ => by cases as <;> rfl
  | _, [], _ :: _, _, h2 => by simp [charListLt] at h2
  | [], _ :: _, _ :: _, h1, _ => by simp [charListLt] at h1
  | a :: as, b :: bs, c :: cs, h1, h2 => by
      simp only [charListLt, Bool.or_eq_false_iff, Bool.and_eq_false_iff,
        beq_eq_false_iff_ne, ne_eq, charLt_eq_false] at h1 h2 ⊢
      obtain ⟨hab, h1r⟩ := h1
      obtain ⟨hbc, h2r⟩ := h2
      refine ⟨fun hac => ?_, ?_⟩
      · omega
      · by_cases hac : a = c
        · subst hac
          have hba : b.toNat = a.toNat := by omega
          have : b = a := char_toNat_inj hba
          subst this
          rcases h1r with h1r | h1r
          · exact absurd rfl h1r
          · rcases h2r with h2r | h2r
            · exact absurd rfl h2r
            · exact Or.inr (charListLt_negtrans as bs cs h1r h2r)
        · exact Or.inl hac
  termination_by as bs cs => as.length + bs.length + cs.length

theorem charListLt_antisymm :
    ∀ as bs : List Char, charListLt as bs = false → charListLt bs as = false → as = bs
  | [], [], _, _ => rfl
  | [], _ :: _, h1, _ => by simp [charListLt] at h1
  | _ :: _, [], _, h2 => by simp [charListLt] at h2
  | a :: as, b :: bs, h1, h2 => by
      simp only [charListLt, Bool.or_eq_false_iff, Bool.and_eq_false_iff,
        beq_eq_false_iff_ne, ne_eq, charLt_eq_false] at h1 h2
      obtain ⟨hab, h1r⟩ := h1
      obtain ⟨hba, h2r⟩ := h2
      have hab : a = b := char_toNat_inj (by omega)
      subst hab
      rcases h1r with h1r | h1r
      · exact absurd rfl h1r
      · rcases h2r with h2r | h2r
        · exact absurd rfl h2r
        · rw [charListLt_antisymm as bs h1r h2r]

theorem strLt_irrefl (a : String) : strLt a a = false :=
  charListLt_irrefl a.data

theorem strLt_asymm {a b : String} (h : strLt a b = true) : strLt b a = false :=
  charListLt_asymm a.data b.data h

theorem strLt_negtrans {a b c : String} (h1 : strLt a b = false) (h2 : strLt b c = false) :
    strLt a c = false :=
  charListLt_negtrans a.data b.data c.data h1 h2

theorem strLt_antisymm {a b : String} (h1 : strLt a b = false) (h2 : strLt b a = false) :
    a = b := by
  cases a; cases b
  exact congrArg String.mk (charListLt_antisymm _ _ h1 h2)

theorem keyLt_irrefl (a : String × String) : keyLt a a = false := by
  simp [keyLt, strLt_irrefl]

theorem keyLt_asymm {a b : String × String} (h : keyLt a b = true) : keyLt b a = false := by
  simp only [keyLt, Bool.or_eq_true, Bool.and_eq_true, beq_iff_eq] at h
  rcases h with h | ⟨h1, h2⟩
  · have hne : ¬ (b.1 = a.1) := by
      intro e
      rw [e] at h
      rw [strLt_irrefl a.1] at h
      exact absurd h (by decide)
    simp [keyLt, strLt_asymm h, hne]
  · simp [keyLt, h1, strLt_irrefl, strLt_asymm h2]

theorem keyLt_negtrans {a b c : String × String} (h1 : keyLt a b = false)
    (h2 : keyLt b c = false) : keyLt a c = false := by
  simp only [keyLt, Bool.or_eq_false_iff, Bool.and_eq_false_iff,
    beq_eq_false_iff_ne, ne_eq] at h1 h2 ⊢
  obtain ⟨hab, h1r⟩ := h1
  obtain ⟨hbc, h2r⟩ := h2
  refine ⟨strLt_negtrans hab hbc, ?_⟩
  by_cases hac : a.1 = c.1
  · have hba : b.1 = a.1 := strLt_antisymm (hac ▸ hbc) hab
    rcases h1r with h1r | h1r
    · exact absurd hba.symm h1r
    · rcases h2r with h2r | h2r
      · exact absurd (hba.trans hac) h2r
      · exact Or.inr (strLt_negtrans h1r h2r)
  · exact Or.inl hac

/-! ## Lemmas about the version resolver -/

theorem latestVersion_cons_none {w : VersionRec} {rest : List VersionRec}
    (hr : latestVersion rest = none) : latestVersion (w :: rest) = some w := by
  rw [latestVersion, hr]

theorem latestVersion_cons_some_pos {w m : VersionRec} {rest : List VersionRec}
    (hr : latestVersion rest = some m)
    (hk : keyLt (w.date, w.note) (m.date, m.note) = true) :
    latestVersion (w :: rest) = some m := by
  rw [latestVersion, hr]
  exact if_pos hk

theorem latestVersion_cons_some_neg {w m : VersionRec} {rest : List VersionRec}
    (hr : latestVersion rest = some m)
    (hk : keyLt (w.date, w.note) (m.date, m.note) = false) :
    latestVersion (w :: rest) = some w := by
  rw [latestVersion, hr]
  exact if_neg (by simp [hk])

theorem latestVersion_eq_none : ∀ vs : List VersionRec, latestVersion vs = none ↔ vs = []
  | [] => by simp [latestVersion]
  | v :: rest => by
      constructor
      · intro h
        cases hr : latestVersion rest with
        | none => rw [latestVersion_cons_none hr] at h; exact Option.noConfusion h
        | some m =>
            cases hk : keyLt (v.date, v.note) (m.date, m.note) with
            | true => rw [latestVersion_cons_some_pos hr hk] at h; exact Option.noConfusion h
            | false => rw [latestVersion_cons_some_neg hr hk] at h; exact Option.noConfusion h
      · intro h
        exact List.noConfusion h

theorem latestVersion_mem : ∀ {vs : List VersionRec} {v : VersionRec},
    latestVersion vs = some v → v ∈ vs
  | [], v, h => by simp [latestVersion] at h
  | w :: rest, v, h => by
      cases hr : latestVersion rest with
      | none =>
          rw [latestVersion_cons_none hr] at h
          exact (Option.some_inj.mp h) ▸ List.mem_cons_self w rest
      | some m =>
          cases hk : keyLt (w.date, w.note) (m.date, m.note) with
          | true =>
              rw [latestVersion_cons_some_pos hr hk] at h
              obtain rfl : m = v := Option.some_inj.mp h
              exact List.mem_cons_of_mem w (latestVersion_mem hr)
          | false =>
              rw [latestVersion_cons_some_neg hr hk] at h
              exact (Option.some_inj.mp h) ▸ List.mem_cons_self w rest

theorem latestVersion_max : ∀ {vs : List VersionRec} {v : VersionRec},
    latestVersion vs = some v →
      ∀ u ∈ vs, keyLt (v.date, v.note) (u.date, u.note) = false
  | [], v, h => by simp [latestVersion] at h
  | w :: rest, v, h => by
      intro u hu
      cases hr : latestVersion rest with
      | none =>
          rw [latestVersion_cons_none hr] at h
          obtain rfl : w = v := Option.some_inj.mp h
          have : rest = [] := (latestVersion_eq_none rest).mp hr
          subst this
          rcases List.mem_cons.mp hu with rfl | hu
          · exact keyLt_irrefl _
          · simp at hu
      | some m =>
          cases hk : keyLt (w.date, w.note) (m.date, m.note) with
          | true =>
              rw [latestVersion_cons_some_pos hr hk] at h
              obtain rfl : m = v := Option.some_inj.mp h
              rcases List.mem_cons.mp hu with rfl | hu
              · exact keyLt_asymm hk
              · exact latestVersion_max hr u hu
          | false =>
              rw [latestVersion_cons_some_neg hr hk] at h
              obtain rfl : w = v := Option.some_inj.mp h
              rcases List.mem_cons.mp hu with rfl | hu
              · exact keyLt_irrefl _
              · exact keyLt_negtrans hk (latestVersion_max hr u hu)

end TextExtract

namespace TextExtract

theorem mimeExt_eq_none {mt : String} : mimeExt mt = none ↔ mt ∉ mimeKeys := by
  unfold mimeExt mimeKeys
  rw [Option.map_eq_none', List.find?_eq_none]
  constructor
  · intro h hmem
    obtain ⟨p, hp, heq⟩ := List.mem_map.mp hmem
    exact h p hp (beq_iff_eq.mpr heq)
  · intro h p hp hb
    exact h (List.mem_map.mpr ⟨p, hp, beq_iff_eq.mp hb⟩)

theorem resolvePath_unknown {jid : String → String} {v : VersionRow}
    (h : v.media_type ∉ mimeKeys) : resolvePath jid v = .error .keyError := by
  unfold resolvePath
  rw [mimeExt_eq_none.mpr h]

/-- C6: for a bill with at least one version the resolver returns a member of
the version list that no other member exceeds in the `(date, note)`
lexicographic key (most recent date, ties broken by note); it returns `none`
exactly for an empty version list, in which case `update_bill` returns
without creating any record; and on the spec's example
`[2020-01-01/"a", 2020-01-01/"b", 2019-12-31/"z"]` it selects
`2020-01-01/"b"`. -/
theorem version_resolver_spec :
    (∀ (vs : List VersionRec) (v : VersionRec), latestVersion vs = some v →
      v ∈ vs ∧ ∀ u ∈ vs, keyLt (v.date, v.note) (u.date, u.note) = false) ∧
    (∀ vs : List VersionRec, latestVersion vs = none ↔ vs = []) ∧
    (∀ (fetch : String → Option Bytes) (extract : Bytes → Metadata → ExtractResult)
      (bill : Bill), bill.versions = [] →
        update_bill fetch extract bill = UpdateOutcome.skipped) ∧
    latestVersion [⟨"2020-01-01", "a", []⟩, ⟨"2020-01-01", "b", []⟩, ⟨"2019-12-31", "z", []⟩]
      = some ⟨"2020-01-01", "b", []⟩ := by
  refine ⟨fun vs v h => ⟨latestVersion_mem h, latestVersion_max h⟩,
    latestVersion_eq_none, ?_, by decide⟩
  intro fetch extract bill h
  unfold update_bill
  rw [h]
  rfl

/-- C2 (code bug): a bill whose only (hence latest) version has zero links
makes `update_bill` raise `NameError` — the loop variable `link` is unbound
at `SearchableBill.objects.create(..., version_link=link, ...)` — so no
record is persisted and the exception aborts the whole batch: the update
flow neither reaches its `RecordPersisted` state nor tolerates this
per-bill fault. -/
theorem update_zero_links_crash :
    update_bill (fun _ => none) (fun _ _ => ExtractResult.raised)
        ⟨"Title", "jid", [⟨"2020-01-01", "", []⟩]⟩ = .crashed .nameError ∧
    update_run (fun _ => none) (fun _ _ => ExtractResult.raised)
        [⟨"Title", "jid", [⟨"2020-01-01", "", []⟩]⟩] 0 = ([], .error .nameError) :=
  ⟨rfl, rfl⟩

/-- C3 (code bug): when the path is not on disk and the fetch fails,
`download` does not return `(None, None)`: the failure handler itself
raises `AttributeError`, because `click.secho("could not fetch",
version["url"], fg="yellow")` passes the URL as `click.secho`'s `file`
parameter. The part of the claim about the cache holds: the filesystem is
unchanged, no entry exists at the resolved path, and nothing was written. -/
theorem download_fetch_failure_raises :
    download (fun _ => "wa") (fun _ => none)
        ⟨"jid", "2019", "HB1", "v1", "application/pdf", "http://example.com/hb1.pdf"⟩ [] =
      ⟨[], .error .attributeError, 1, 0⟩ :=
  rfl

/-- C5 counterexample: two versions agreeing on jurisdiction, session,
identifier and note but differing in media type resolve to different cache
paths (`.pdf` vs `.html`), so the path is not a function of those four
fields alone. -/
theorem cachePath_depends_on_media_type :
    resolvePath (fun _ => "wa") ⟨"jid", "2019", "HB1", "v1", "application/pdf", "u1"⟩ =
        .ok "raw/wa/2019-HB1-v1.pdf" ∧
    resolvePath (fun _ => "wa") ⟨"jid", "2019", "HB1", "v1", "text/html", "u2"⟩ =
        .ok "raw/wa/2019-HB1-v1.html" ∧
    ("raw/wa/2019-HB1-v1.pdf" : String) ≠ "raw/wa/2019-HB1-v1.html" :=
  ⟨rfl, rfl, by decide⟩

/-- C5 (amended): the resolved cache path is a pure function of
(jurisdiction abbreviation, session, document identifier, note, media
type): any two calls agreeing on those five inputs resolve to the identical
path, regardless of call order, of the url, or of any other difference. -/
theorem cachePath_pure_function (jid1 jid2 : String → String) (v1 v2 : VersionRow)
    (h1 : jid1 v1.jurisdiction_id = jid2 v2.jurisdiction_id)
    (h2 : v1.session = v2.session) (h3 : v1.identifier = v2.identifier)
    (h4 : v1.note = v2.note) (h5 : v1.media_type = v2.media_type) :
    resolvePath jid1 v1 = resolvePath jid2 v2 := by
  unfold resolvePath rawPath
  rw [h1, h2, h3, h4, h5]

/-- Witness for the amended C5 at concrete inputs: different jurisdiction-id
spellings, different urls, same five resolved inputs. -/
theorem cachePath_pure_function_witness :
    resolvePath (fun _ => "wa") ⟨"j1", "2019", "HB1", "v1", "application/pdf", "u1"⟩ =
      resolvePath (fun s => s) ⟨"wa", "2019", "HB1", "v1", "application/pdf", "u2"⟩ :=
  cachePath_pure_function (fun _ => "wa") (fun s => s)
    ⟨"j1", "2019", "HB1", "v1", "application/pdf", "u1"⟩
    ⟨"wa", "2019", "HB1", "v1", "application/pdf", "u2"⟩ rfl rfl rfl rfl rfl

/-- C9: cache path resolution fails with a raised error exactly when the
version's media type is not one of the five mapped types; with an unmapped
media type, `download` raises the `KeyError` whatever the filesystem holds
(in particular even when the artifact is already cached), touching neither
the network nor the disk. -/
theorem unknown_media_type_fatal :
    (∀ (jid : String → String) (v : VersionRow),
      (∃ e, resolvePath jid v = .error e) ↔ v.media_type ∉ mimeKeys) ∧
    (∀ (jid : String → String) (fetch : String → Option Bytes) (v : VersionRow) (fs : FS),
      v.media_type ∉ mimeKeys → download jid fetch v fs = ⟨fs, .error .keyError, 0, 0⟩) ∧
    mimeKeys = ["application/pdf", "text/html", "application/msword", "application/rtf",
      "application/vnd.openxmlformats-officedocument.wordprocessingml.document"] := by
  refine ⟨?_, ?_, rfl⟩
  · intro jid v
    constructor
    · rintro ⟨e, he⟩
      intro hmem
      unfold resolvePath at he
      cases hext : mimeExt v.media_type with
      | none => exact (mimeExt_eq_none.mp hext) hmem
      | some ext => rw [hext] at he; exact Except.noConfusion he
    · intro h
      exact ⟨.keyError, resolvePath_unknown h⟩
  · intro jid fetch v fs h
    unfold download
    rw [resolvePath_unknown h]

end TextExtract

namespace TextExtract

/-- C4: starting from a filesystem without the resolved path and a fetch
that returns `b`, the first `download` writes `(p, b)` exactly once
(one fetch, one write) and returns those bytes; the second call on the
resulting filesystem is a pure read: it returns the identical bytes with
zero fetches and zero writes and leaves the filesystem unchanged. -/
theorem download_idempotent (jid : String → String) (fetch : String → Option Bytes)
    (v : VersionRow) (fs : FS) (p : String) (b : Bytes)
    (hp : resolvePath jid v = .ok p)
    (hmiss : fs.lookup p = none)
    (hfetch : fetch v.url = some b) :
    download jid fetch v fs = ⟨(p, b) :: fs, .ok (some (p, b)), 1, 1⟩ ∧
    download jid fetch v ((p, b) :: fs) = ⟨(p, b) :: fs, .ok (some (p, b)), 0, 0⟩ := by
  constructor
  · simp only [download, hp, hmiss, hfetch]
  · simp only [download, hp]
    have hhit : ((p, b) :: fs).lookup p = some b := by
      simp [List.lookup]
    simp only [hhit]

/-- Witness for C4 at a concrete version, empty cache and a working fetch. -/
theorem download_idempotent_witness :
    download (fun _ => "wa")
        (fun u => if u == "http://x/hb1.pdf" then some [37, 80, 68, 70] else none)
        ⟨"jid", "2019", "HB1", "v1", "application/pdf", "http://x/hb1.pdf"⟩ [] =
      ⟨[("raw/wa/2019-HB1-v1.pdf", [37, 80, 68, 70])],
        .ok (some ("raw/wa/2019-HB1-v1.pdf", [37, 80, 68, 70])), 1, 1⟩ ∧
    download (fun _ => "wa")
        (fun u => if u == "http://x/hb1.pdf" then some [37, 80, 68, 70] else none)
        ⟨"jid", "2019", "HB1", "v1", "application/pdf", "http://x/hb1.pdf"⟩
        [("raw/wa/2019-HB1-v1.pdf", [37, 80, 68, 70])] =
      ⟨[("raw/wa/2019-HB1-v1.pdf", [37, 80, 68, 70])],
        .ok (some ("raw/wa/2019-HB1-v1.pdf", [37, 80, 68, 70])), 0, 0⟩ :=
  download_idempotent (fun _ => "wa")
    (fun u => if u == "http://x/hb1.pdf" then some [37, 80, 68, 70] else none)
    ⟨"jid", "2019", "HB1", "v1", "application/pdf", "http://x/hb1.pdf"⟩ []
    "raw/wa/2019-HB1-v1.pdf" [37, 80, 68, 70] rfl rfl rfl

theorem sampleCounts_eq (items : List SampleItem) :
    sampleCounts items =
      (items.length, (items.filter isMissing).length, (items.filter producedEmpty).length) := by
  induction items with
  | nil => rfl
  | cons i rest ih =>
      cases i with
      | missing => simp [sampleCounts, ih, isMissing, producedEmpty, List.filter_cons]
      | fetched n =>
          cases n with
          | zero => simp [sampleCounts, ih, isMissing, producedEmpty, List.filter_cons]
          | succ k => simp [sampleCounts, ih, isMissing, producedEmpty, List.filter_cons]

theorem sampleStatus_cases (m e : Nat) :
    (sampleStatus m e = "red" ↔ 1 ≤ e ∨ 10 < m) ∧
    (sampleStatus m e = "yellow" ↔ 1 ≤ m ∧ ¬(1 ≤ e ∨ 10 < m)) ∧
    (sampleStatus m e = "green" ↔ m = 0 ∧ e = 0) := by
  have hcond1 : (e != 0 || decide (m > 10)) = true ↔ (1 ≤ e ∨ 10 < m) := by
    rw [Bool.or_eq_true, bne_iff_ne, decide_eq_true_eq]
    omega
  have hcond2 : (m != 0) = true ↔ 1 ≤ m := by
    rw [bne_iff_ne]
    omega
  unfold sampleStatus
  by_cases h1 : (e != 0 || decide (m > 10)) = true
  · rw [if_pos h1]
    rw [hcond1] at h1
    refine ⟨iff_of_true rfl h1, iff_of_false (by decide) ?_, iff_of_false (by decide) ?_⟩
    · rintro ⟨_, hn⟩
      exact hn h1
    · rintro ⟨hm, he⟩
      omega
  · rw [if_neg h1]
    rw [hcond1] at h1
    by_cases h2 : (m != 0) = true
    · rw [if_pos h2]
      rw [hcond2] at h2
      refine ⟨iff_of_false (by decide) h1, iff_of_true rfl ⟨h2, h1⟩,
        iff_of_false (by decide) ?_⟩
      rintro ⟨hm, _⟩
      omega
    · rw [if_neg h2]
      rw [hcond2] at h2
      refine ⟨iff_of_false (by decide) h1, iff_of_false (by decide) ?_,
        iff_of_true rfl ⟨by omega, by omega⟩⟩
      rintro ⟨hm, _⟩
      exact h2 hm

/-- C7: over any sampling run, the aggregate status is `red` iff at least
one item extracted to empty text or more than 10 items were entirely
unfetchable; `yellow` iff at least one item was unfetchable and the red
condition fails; `green` iff no item was unfetchable and none extracted to
empty; and the command's result is non-zero exactly on `red`. -/
theorem sample_status_spec (items : List SampleItem) :
    ((sample items).1 = "red" ↔
      1 ≤ (items.filter producedEmpty).length ∨ 10 < (items.filter isMissing).length) ∧
    ((sample items).1 = "yellow" ↔
      1 ≤ (items.filter isMissing).length ∧
        ¬(1 ≤ (items.filter producedEmpty).length ∨ 10 < (items.filter isMissing).length)) ∧
    ((sample items).1 = "green" ↔
      (items.filter isMissing).length = 0 ∧ (items.filter producedEmpty).length = 0) ∧
    ((sample items).2 ≠ 0 ↔ (sample items).1 = "red") := by
  have hc := sampleCounts_eq items
  have hs : (sample items).1 =
      sampleStatus ((items.filter isMissing).length) ((items.filter producedEmpty).length) := by
    simp [sample, hc]
  have hx : (sample items).2 =
      sampleExit ((items.filter isMissing).length) ((items.filter producedEmpty).length) := by
    simp [sample, hc]
  rw [hs, hx]
  have main := sampleStatus_cases ((items.filter isMissing).length)
    ((items.filter producedEmpty).length)
  refine ⟨main.1, main.2.1, main.2.2, ?_⟩
  unfold sampleExit
  by_cases hr : sampleStatus ((items.filter isMissing).length)
      ((items.filter producedEmpty).length) = "red"
  · rw [if_pos hr]
    simp [hr]
  · rw [if_neg hr]
    simp [hr]

end TextExtract

namespace TextExtract

theorem linkLoop_fail_head (fetch : String → Option Bytes)
    (extract : Bytes → Metadata → ExtractResult) (bill : Bill) (l : LinkRec)
    (rest : List LinkRec) (last : Option LinkRec)
    (h : linkSucceeds fetch extract bill l = false) :
    linkLoop fetch extract bill (l :: rest) "" true last =
      linkLoop fetch extract bill rest "" true (some l) := by
  cases hf : fetch l.url with
  | none => simp only [linkLoop, hf]
  | some data =>
      cases hx : extract data (linkMetadata bill l) with
      | raised => simp only [linkLoop, hf, hx]
      | ok t =>
          simp only [linkSucceeds, hf, hx, bne_eq_false_iff_eq] at h
          subst h
          simp only [linkLoop, hf, hx]
          rfl

theorem linkLoop_success_head (fetch : String → Option Bytes)
    (extract : Bytes → Metadata → ExtractResult) (bill : Bill) (l : LinkRec)
    (rest : List LinkRec) (raw : String) (err : Bool) (last : Option LinkRec)
    (h : linkSucceeds fetch extract bill l = true) :
    linkLoop fetch extract bill (l :: rest) raw err last =
      (linkText fetch extract bill l, false, some l) := by
  cases hf : fetch l.url with
  | none =>
      simp only [linkSucceeds, hf] at h
      exact Bool.noConfusion h
  | some data =>
      cases hx : extract data (linkMetadata bill l) with
      | raised =>
          simp only [linkSucceeds, hf, hx] at h
          exact Bool.noConfusion h
      | ok t =>
          simp only [linkSucceeds, hf, hx, bne_iff_ne, ne_eq] at h
          simp only [linkLoop, linkText, hf, hx]
          rw [if_neg (by simpa using h)]

theorem linkSucceeds_text_ne_empty {fetch : String → Option Bytes}
    {extract : Bytes → Metadata → ExtractResult} {bill : Bill} {l : LinkRec}
    (h : linkSucceeds fetch extract bill l = true) :
    linkText fetch extract bill l ≠ "" := by
  cases hf : fetch l.url with
  | none =>
      simp only [linkSucceeds, hf] at h
      exact Bool.noConfusion h
  | some data =>
      cases hx : extract data (linkMetadata bill l) with
      | raised =>
          simp only [linkSucceeds, hf, hx] at h
          exact Bool.noConfusion h
      | ok t =>
          simp only [linkSucceeds, hf, hx, bne_iff_ne, ne_eq] at h
          simp only [linkText, hf, hx]
          exact h

theorem linkLoop_all_fail (fetch : String → Option Bytes)
    (extract : Bytes → Metadata → ExtractResult) (bill : Bill) :
    ∀ (links : List LinkRec) (last : Option LinkRec),
      (∀ l ∈ links, linkSucceeds fetch extract bill l = false) →
      linkLoop fetch extract bill links "" true last = ("", true, lastAttempt last links)
  | [], _, _ => rfl
  | l :: rest, last, h => by
      rw [linkLoop_fail_head fetch extract bill l rest last (h l (List.mem_cons_self l rest))]
      rw [linkLoop_all_fail fetch extract bill rest (some l)
        (fun x hx => h x (List.mem_cons_of_mem l hx))]
      rfl

theorem linkLoop_first_success (fetch : String → Option Bytes)
    (extract : Bytes → Metadata → ExtractResult) (bill : Bill) :
    ∀ (pre : List LinkRec) (l : LinkRec) (post : List LinkRec) (last : Option LinkRec),
      (∀ x ∈ pre, linkSucceeds fetch extract bill x = false) →
      linkSucceeds fetch extract bill l = true →
      linkLoop fetch extract bill (pre ++ l :: post) "" true last =
        (linkText fetch extract bill l, false, some l)
  | [], l, post, last, _, hl =>
      linkLoop_success_head fetch extract bill l post "" true last hl
  | x :: pre, l, post, last, h, hl => by
      rw [List.cons_append]
      rw [linkLoop_fail_head fetch extract bill x (pre ++ l :: post) last
        (h x (List.mem_cons_self x pre))]
      exact linkLoop_first_success fetch extract bill pre l post (some x)
        (fun y hy => h y (List.mem_cons_of_mem x hy)) hl

theorem exists_first_success {α : Type} (p : α → Bool) :
    ∀ l : List α, (∃ x ∈ l, p x = true) →
      ∃ pre x post, l = pre ++ x :: post ∧ (∀ y ∈ pre, p y = false) ∧ p x = true
  | [], h => by simp at h
  | a :: l, h => by
      cases ha : p a with
      | true => exact ⟨[], a, l, rfl, by simp, ha⟩
      | false =>
          obtain ⟨x, hx, hpx⟩ := h
          rcases List.mem_cons.mp hx with rfl | hx
          · exact absurd hpx (by simp [ha])
          · obtain ⟨pre, y, post, heq, hpre, hy⟩ :=
              exists_first_success p l ⟨x, hx, hpx⟩
            refine ⟨a :: pre, y, post, by rw [heq, List.cons_append], ?_, hy⟩
            intro z hz
            rcases List.mem_cons.mp hz with rfl | hz
            · exact ha
            · exact hpre z hz

theorem lastAttempt_eq_getLast :
    ∀ (links : List LinkRec) (last : Option LinkRec), links ≠ [] →
      lastAttempt last links = links.getLast?
  | [l], _, _ => rfl
  | l :: x :: rest, last, _ => by
      rw [lastAttempt]
      rw [lastAttempt_eq_getLast (x :: rest) (some l) (by simp)]
      rw [List.getLast?_cons_cons]

/-- C1: for a version with at least one link, the fallback loop tries the
links in order and stops at the first link whose fetch succeeds and whose
content extracts to non-empty text, regardless of anything after it; the
final `is_error` is `true` exactly when every link failed to fetch, raised
in extraction or produced empty text, in which case the text is `""` and the
chosen link is the last one attempted (the final list element); on success
the result carries that link's non-empty extracted text and the successful
link itself. -/
theorem link_fallback_spec (fetch : String → Option Bytes)
    (extract : Bytes → Metadata → ExtractResult) (bill : Bill)
    (links : List LinkRec) (h : links ≠ []) :
    ((linkLoop fetch extract bill links "" true none).2.1 = true ↔
      ∀ l ∈ links, linkSucceeds fetch extract bill l = false) ∧
    ((∀ l ∈ links, linkSucceeds fetch extract bill l = false) →
      linkLoop fetch extract bill links "" true none =
        ("", true, links.getLast?)) ∧
    (∀ (pre : List LinkRec) (l : LinkRec) (post : List LinkRec),
      links = pre ++ l :: post →
      (∀ x ∈ pre, linkSucceeds fetch extract bill x = false) →
      linkSucceeds fetch extract bill l = true →
      linkLoop fetch extract bill links "" true none =
        (linkText fetch extract bill l, false, some l) ∧
      linkText fetch extract bill l ≠ "") := by
  refine ⟨⟨?_, ?_⟩, ?_, ?_⟩
  · intro herr
    by_contra hnot
    push_neg at hnot
    obtain ⟨l, hl, hs⟩ := hnot
    have hs : linkSucceeds fetch extract bill l = true := by
      cases hv : linkSucceeds fetch extract bill l
      · exact absurd hv hs
      · rfl
    obtain ⟨pre, x, post, heq, hpre, hx⟩ :=
      exists_first_success (linkSucceeds fetch extract bill) links ⟨l, hl, hs⟩
    rw [heq, linkLoop_first_success fetch extract bill pre x post none hpre hx] at herr
    exact Bool.noConfusion herr
  · intro hall
    rw [linkLoop_all_fail fetch extract bill links none hall]
  · intro hall
    rw [linkLoop_all_fail fetch extract bill links none hall,
      lastAttempt_eq_getLast links none h]
  · intro pre l post heq hpre hl
    refine ⟨?_, linkSucceeds_text_ne_empty hl⟩
    rw [heq]
    exact linkLoop_first_success fetch extract bill pre l post none hpre hl

/-- Witness for C1: the spec's two examples. Links `[A(empty), B(fails),
C(success:"text")]` yield `("text", C, not-error)`; links
`[A(fails), B(empty)]` yield `("", B, error)`. -/
theorem link_fallback_spec_witness :
    linkLoop
        (fun u => if u == "A" then some [1] else if u == "C" then some [3] else none)
        (fun d _ => if d == [3] then .ok "text" else .ok "")
        ⟨"T", "J", []⟩
        [⟨"A", "text/html"⟩, ⟨"B", "text/html"⟩, ⟨"C", "application/pdf"⟩] "" true none =
      ("text", false, some ⟨"C", "application/pdf"⟩) ∧
    linkLoop
        (fun u => if u == "B" then some [2] else none)
        (fun _ _ => .ok "")
        ⟨"T", "J", []⟩
        [⟨"A", "text/html"⟩, ⟨"B", "text/html"⟩] "" true none =
      ("", true, some ⟨"B", "text/html"⟩) := by
  constructor
  · exact ((link_fallback_spec
      (fun u => if u == "A" then some [1] else if u == "C" then some [3] else none)
      (fun d _ => if d == [3] then .ok "text" else .ok "")
      ⟨"T", "J", []⟩
      [⟨"A", "text/html"⟩, ⟨"B", "text/html"⟩, ⟨"C", "application/pdf"⟩]
      (by decide)).2.2
      [⟨"A", "text/html"⟩, ⟨"B", "text/html"⟩] ⟨"C", "application/pdf"⟩ []
      rfl (by decide) (by decide)).1
  · exact (link_fallback_spec
      (fun u => if u == "B" then some [2] else none)
      (fun _ _ => .ok "")
      ⟨"T", "J", []⟩
      [⟨"A", "text/html"⟩, ⟨"B", "text/html"⟩]
      (by decide)).2.1 (by decide)

end TextExtract

namespace TextExtract

theorem update_bill_skipped {fetch : String → Option Bytes}
    {extract : Bytes → Metadata → ExtractResult} {bill : Bill}
    (h : update_bill fetch extract bill = .skipped) : bill.versions = [] := by
  cases hlv : latestVersion bill.versions with
  | none => exact (latestVersion_eq_none _).mp hlv
  | some v =>
      simp only [update_bill, hlv] at h
      rcases hll : linkLoop fetch extract bill v.links "" true none with ⟨raw, err, link⟩
      rw [hll] at h
      cases link <;> simp at h

theorem update_bill_persisted {fetch : String → Option Bytes}
    {extract : Bytes → Metadata → ExtractResult} {bill : Bill} {rec : SearchableBill}
    (h : update_bill fetch extract bill = .persisted rec) : bill.versions ≠ [] := by
  intro hnil
  rw [update_bill] at h
  rw [hnil] at h
  simp [latestVersion] at h

theorem processBills_spec (fetch : String → Option Bytes)
    (extract : Bytes → Metadata → ExtractResult) :
    ∀ (bills : List Bill) (n0 : Nat) (evs : List StoreEvent) (ids : List (Option Nat)),
      processBills fetch extract bills n0 = (evs, .ok ids) →
      (∀ e ∈ evs, isBulk e = false) ∧
      ids.length = bills.length ∧
      ids.filterMap (fun x => x) = createdIds evs ∧
      (∀ i ∈ createdIds evs, n0 ≤ i) ∧
      ids.count none = (bills.filter (fun b => b.versions.isEmpty)).length
  | [], n0, evs, ids, h => by
      simp only [processBills, Prod.mk.injEq, Except.ok.injEq] at h
      obtain ⟨rfl, rfl⟩ := h
      simp [createdIds]
  | b :: rest, n0, evs, ids, h => by
      cases hub : update_bill fetch extract b with
      | crashed e =>
          simp only [processBills, hub, Prod.mk.injEq] at h
          exact Except.noConfusion h.2
      | skipped =>
          rcases hrec : processBills fetch extract rest n0 with ⟨evs2, r⟩
          cases r with
          | error e =>
              simp only [processBills, hub, hrec, Except.map, Prod.mk.injEq] at h
              exact Except.noConfusion h.2
          | ok ids2 =>
              simp only [processBills, hub, hrec, Except.map, Prod.mk.injEq,
                Except.ok.injEq] at h
              obtain ⟨rfl, rfl⟩ := h
              obtain ⟨ha, hb, hc, hd, he⟩ :=
                processBills_spec fetch extract rest n0 evs2 ids2 hrec
              have hempty : b.versions.isEmpty = true := by
                rw [update_bill_skipped hub]
                rfl
              refine ⟨ha, by simp [hb], hc, hd, ?_⟩
              rw [List.count_cons_self, he]
              simp [List.filter_cons, hempty]
      | persisted rec =>
          rcases hrec : processBills fetch extract rest (n0 + 1) with ⟨evs2, r⟩
          cases r with
          | error e =>
              simp only [processBills, hub, hrec, Except.map, Prod.mk.injEq] at h
              exact Except.noConfusion h.2
          | ok ids2 =>
              simp only [processBills, hub, hrec, Except.map, Prod.mk.injEq,
                Except.ok.injEq] at h
              obtain ⟨rfl, rfl⟩ := h
              obtain ⟨ha, hb, hc, hd, he⟩ :=
                processBills_spec fetch extract rest (n0 + 1) evs2 ids2 hrec
              have hne : b.versions.isEmpty = false := by
                cases hv : b.versions with
                | nil => exact absurd hv (update_bill_persisted hub)
                | cons x xs => rfl
              refine ⟨?_, by simp [hb], ?_, ?_, ?_⟩
              · intro e hmem
                rcases List.mem_cons.mp hmem with rfl | hmem2
                · rfl
                · exact ha e hmem2
              · exact congrArg (List.cons n0) hc
              · intro i hi
                rcases List.mem_cons.mp hi with rfl | hmem2
                · exact Nat.le_refl i
                · exact Nat.le_of_succ_le (hd i hmem2)
              · rw [List.count_cons_of_ne (by simp), he]
                simp [List.filter_cons, hne]

/-- C8 counterexample: in a run over a single bill with no versions — the
bill is skipped and no record is created — the one batch recomputation is
handed the id list `[None]`: it does contain an entry for the skipped
bill (and the created-id set is empty), contrary to the claim. -/
theorem update_run_skipped_entry_cex :
    update_run (fun _ => none) (fun _ _ => ExtractResult.raised) [⟨"T", "J", []⟩] 0 =
      ([StoreEvent.bulkUpdateVectors [none]], .ok ()) ∧
    createdIds [StoreEvent.bulkUpdateVectors [none]] = [] ∧
    ([none] : List (Option Nat)) ≠ [] :=
  ⟨rfl, rfl, by decide⟩

/-- C8 (amended): in every update run that finishes (no bill crashed), the
batch search-vector recomputation is issued exactly once, strictly after
every record creation of the run (it is the final store event); the list it
is given has one entry per processed bill: the ids of the records created in
this run, in order — all of them at or above this run's first fresh id, so
no stale ids from previous runs — plus a `None` placeholder for each bill
that was skipped for lack of versions. -/
theorem update_run_batch_spec (fetch : String → Option Bytes)
    (extract : Bytes → Metadata → ExtractResult) (bills : List Bill) (n0 : Nat)
    (evs : List StoreEvent)
    (hok : update_run fetch extract bills n0 = (evs, .ok ())) :
    (evs.filter isBulk).length = 1 ∧
    ∃ ids : List (Option Nat),
      evs.getLast? = some (.bulkUpdateVectors ids) ∧
      (∀ e ∈ evs.dropLast, isBulk e = false) ∧
      ids.length = bills.length ∧
      ids.filterMap (fun x => x) = createdIds evs ∧
      (∀ i ∈ createdIds evs, n0 ≤ i) ∧
      ids.count none = (bills.filter (fun b => b.versions.isEmpty)).length := by
  rcases hrec : processBills fetch extract bills n0 with ⟨evs2, r⟩
  cases r with
  | error e =>
      rw [update_run, hrec] at hok
      simp only [Prod.mk.injEq] at hok
      exact Except.noConfusion hok.2
  | ok ids =>
      rw [update_run, hrec] at hok
      simp only [Prod.mk.injEq] at hok
      obtain ⟨rfl, -⟩ := hok
      obtain ⟨ha, hb, hc, hd, he⟩ := processBills_spec fetch extract bills n0 evs2 ids hrec
      have hfilter : evs2.filter isBulk = [] := by
        rw [List.filter_eq_nil_iff]
        intro e hmem
        simp [ha e hmem]
      have hcreated : createdIds (evs2 ++ [StoreEvent.bulkUpdateVectors ids]) =
          createdIds evs2 := by
        simp [createdIds, List.filterMap_append]
      constructor
      · rw [List.filter_append, hfilter]
        rfl
      · refine ⟨ids, ?_, ?_, hb, ?_, ?_, he⟩
        · rw [List.getLast?_concat]
        · rw [List.dropLast_concat]
          intro e hmem
          exact ha e hmem
        · rw [hcreated]
          exact hc
        · rw [hcreated]
          exact hd

/-- Witness for the amended C8: a run over one bill that persists a record
(id 5) and one bill with no versions (skipped); its trace issues the single
batch update last, over `[some 5, none]`. -/
theorem update_run_batch_spec_witness :
    (([StoreEvent.createRecord 5 ⟨⟨"L", "text/html"⟩, "B1", "hello", false⟩,
       StoreEvent.bulkUpdateVectors [some 5, none]].filter isBulk)).length = 1 :=
  (update_run_batch_spec (fun _ => some [1]) (fun _ _ => .ok "hello")
    [⟨"B1", "J", [⟨"2020-01-01", "v", [⟨"L", "text/html"⟩]⟩]⟩, ⟨"B2", "J", []⟩] 5
    [StoreEvent.createRecord 5 ⟨⟨"L", "text/html"⟩, "B1", "hello", false⟩,
     StoreEvent.bulkUpdateVectors [some 5, none]] rfl).1

end TextExtract

namespace Scruffy

theorem entityCheck_eq_some {resolve : String → String → Option String}
    {eid : String} {ent : REntity} {c : Check} :
    entityCheck resolve eid ent = some c ↔
      ∃ i, ent.id = some i ∧ i ≠ "" ∧ resolve ent.rtype i = none ∧
        c = ⟨"events", eid, "bad-related-entity", "important", some ⟨none, ent.name⟩⟩ := by
  cases hid : ent.id with
  | none => simp [entityCheck, hid]
  | some i =>
      by_cases hi : i = ""
      · subst hi
        simp [entityCheck, hid]
      · cases hr : resolve ent.rtype i with
        | none =>
            simp only [entityCheck, hid, hr, bne_iff_ne, ne_eq, hi, not_false_iff,
              if_true, Option.some.injEq]
            constructor
            · intro h
              exact ⟨i, rfl, hi, hr, h.symm⟩
            · rintro ⟨j, hj, -, -, rfl⟩
              rfl
        | some w =>
            simp only [entityCheck, hid, hr, bne_iff_ne, ne_eq, hi, not_false_iff,
              if_true, Option.some.injEq]
            constructor
            · intro h
              exact Option.noConfusion h
            · rintro ⟨j, hj, -, hrj, -⟩
              obtain rfl : i = j := Option.some_inj.mp (hid ▸ hj ▸ hid)
              rw [hr] at hrj
              exact Option.noConfusion hrj

theorem mem_endsBlock_tagname {ev : EventT} {c : Check}
    (h : c ∈ (match ev.endTime with
        | some e => if decide (ev.startTime > e) then
            [(⟨"events", ev.eid, "ends-before-it-starts", "important", none⟩ : Check)]
          else []
        | none => ([] : List Check))) :
    c.tagname = "ends-before-it-starts" := by
  cases he : ev.endTime with
  | none => rw [he] at h; exact absurd h (List.not_mem_nil c)
  | some e =>
      rw [he] at h
      by_cases hw : ev.startTime > e
      · simp only [hw, decide_True, if_true, List.mem_singleton] at h
        rw [h]
      · simp [hw] at h

/-- C10: assuming the shared `common_checks` collaborator never yields a
`bad-related-entity` tag, every `bad-related-entity` check the events checker
yields carries `None` — the failed resolution result `wid` — as the `id`
entry of its data, never the entity's original id; and such a check is
yielded exactly for the agenda entities whose id is truthy and resolves to
`None`. -/
theorem bad_related_entity_spec (commonChecks : EventT → List Check)
    (resolve : String → String → Option String) (db : List EventT)
    (hcc : ∀ ev : EventT, ∀ c ∈ commonChecks ev, c.tagname ≠ "bad-related-entity") :
    (∀ c ∈ checkDb commonChecks resolve db, c.tagname = "bad-related-entity" →
      ∃ nm, c.data = some ⟨none, nm⟩) ∧
    (∀ c ∈ checkDb commonChecks resolve db, c.tagname = "bad-related-entity" →
      ∃ ev ∈ db, ∃ ag ∈ ev.agenda, ∃ ent ∈ ag.related_entities, ∃ i,
        ent.id = some i ∧ i ≠ "" ∧ resolve ent.rtype i = none ∧
        c = ⟨"events", ev.eid, "bad-related-entity", "important", some ⟨none, ent.name⟩⟩) ∧
    (∀ ev ∈ db, ∀ ag ∈ ev.agenda, ∀ ent ∈ ag.related_entities, ∀ i : String,
      ent.id = some i → i ≠ "" → resolve ent.rtype i = none →
      (⟨"events", ev.eid, "bad-related-entity", "important", some ⟨none, ent.name⟩⟩ : Check)
        ∈ checkDb commonChecks resolve db) := by
  have hmain : ∀ c ∈ checkDb commonChecks resolve db, c.tagname = "bad-related-entity" →
      ∃ ev ∈ db, ∃ ag ∈ ev.agenda, ∃ ent ∈ ag.related_entities, ∃ i,
        ent.id = some i ∧ i ≠ "" ∧ resolve ent.rtype i = none ∧
        c = ⟨"events", ev.eid, "bad-related-entity", "important", some ⟨none, ent.name⟩⟩ := by
    intro c hmem htag
    obtain ⟨ev, hev, hcev⟩ := List.mem_flatMap.mp hmem
    rcases List.mem_append.mp hcev with h12 | hag
    · rcases List.mem_append.mp h12 with hcom | hend
      · exact absurd htag (hcc ev c hcom)
      · rw [mem_endsBlock_tagname hend] at htag
        exact absurd htag (by decide)
    · obtain ⟨ag, hagm, hentm⟩ := List.mem_flatMap.mp hag
      obtain ⟨ent, hent, hsome⟩ := List.mem_filterMap.mp hentm
      obtain ⟨i, hid, hi, hr, rfl⟩ := entityCheck_eq_some.mp hsome
      exact ⟨ev, hev, ag, hagm, ent, hent, i, hid, hi, hr, rfl⟩
  refine ⟨?_, hmain, ?_⟩
  · intro c hmem htag
    obtain ⟨ev, -, ag, -, ent, -, i, -, -, -, rfl⟩ := hmain c hmem htag
    exact ⟨ent.name, rfl⟩
  · intro ev hev ag hagm ent hent i hid hi hr
    refine List.mem_flatMap.mpr ⟨ev, hev, ?_⟩
    refine List.mem_append.mpr (Or.inr ?_)
    refine List.mem_flatMap.mpr ⟨ag, hagm, ?_⟩
    refine List.mem_filterMap.mpr ⟨ent, hent, ?_⟩
    exact entityCheck_eq_some.mpr ⟨i, hid, hi, hr, rfl⟩

/-- Witness for C10: with no common checks, a resolver that fails every id,
and one event whose agenda holds one entity with truthy id, the checker
yields the `bad-related-entity` check whose data id is `None`. -/
theorem bad_related_entity_spec_witness :
    (⟨"events", "E1", "bad-related-entity", "important", some ⟨none, "Alice"⟩⟩ : Check)
      ∈ checkDb (fun _ => []) (fun _ _ => none)
        [⟨"E1", 0, none, [⟨[⟨"person", some "p1", "Alice"⟩]⟩]⟩] :=
  (bad_related_entity_spec (fun _ => []) (fun _ _ => none)
      [⟨"E1", 0, none, [⟨[⟨"person", some "p1", "Alice"⟩]⟩]⟩]
      (fun _ c hc => absurd hc (List.not_mem_nil c))).2.2
    ⟨"E1", 0, none, [⟨[⟨"person", some "p1", "Alice"⟩]⟩]⟩ (by simp)
    ⟨[⟨"person", some "p1", "Alice"⟩]⟩ (by simp)
    ⟨"person", some "p1", "Alice"⟩ (by simp)
    "p1" rfl (by decide) rfl

end Scruffy
